import Mathlib

/-!
Verification of the markdown rendering core (`src/markdown.ts`) of the `md`
live-preview tool.

The TypeScript source is shallowly embedded: every pure function of the
source is translated to an executable Lean definition operating on `String`
(implemented over `List Char` so that all definitions reduce in the kernel).
External collaborators of the core (the `marked` lexer, the `highlight.js`
engine, the `node-emoji` table) are not part of the repository's source and
are modelled as explicit parameters, as the spec directs ("out of scope,
treated as external collaborators").

JavaScript string idioms are translated as follows:
* `.replace(/x/g, y)` chains over disjoint single characters become a
  single character-wise expansion (the replacement strings never contain a
  character that a later pass targets, and earlier passes are already done,
  so the sequential global replaces equal the simultaneous map);
* `.split("\n")`, `.trim()`, `.toLowerCase()`, `.join(...)` are implemented
  directly over `List Char` (`String.splitOn` etc. are avoided only because
  they do not reduce in the kernel; the behaviour is the JS one, e.g.
  `"".split("\n") = [""]`).
-/

/-! ## Basic string machinery (List Char based) -/

/-- One step of `escapeHtml` from `src/markdown.ts` (lines 632-639): the
five chained global replaces `&→&amp;`, `<→&lt;`, `>→&gt;`, `"→&quot;`,
`'→&#39;` expand each character independently. -/
def escapeChar (c : Char) : List Char :=
  if c = '&' then "&amp;".data
  else if c = '<' then "&lt;".data
  else if c = '>' then "&gt;".data
  else if c = '"' then "&quot;".data
  else if c = '\'' then "&#39;".data
  else [c]

def escapeList : List Char → List Char
  | [] => []
  | c :: rest => escapeChar c ++ escapeList rest

/-- `escapeHtml` from `src/markdown.ts` lines 632-639. -/
def escapeHtml (source : String) : String :=
  ⟨escapeList source.data⟩

def normalizeNewlinesList : List Char → List Char
  | [] => []
  | '\r' :: '\n' :: rest => '\n' :: normalizeNewlinesList rest
  | c :: rest => c :: normalizeNewlinesList rest

/-- `normalizeNewlines` from `src/markdown.ts` lines 481-483:
`value.replace(/\r\n/g, "\n")` (a left-to-right scan). -/
def normalizeNewlines (value : String) : String :=
  ⟨normalizeNewlinesList value.data⟩

/-- JavaScript `String.prototype.trim` (whitespace stripped from both
ends), used by the source via `.trim()`. -/
def jsTrim (s : String) : String :=
  ⟨((s.data.dropWhile Char.isWhitespace).reverse.dropWhile Char.isWhitespace).reverse⟩

/-- JavaScript `String.prototype.toLowerCase`, character-wise (the source
only relies on ASCII case folding). -/
def lowerString (s : String) : String :=
  ⟨s.data.map Char.toLower⟩

/-- JavaScript `.split("\n")`: always returns at least one segment, e.g.
`"".split("\n") = [""]`. -/
def splitNl : List Char → List (List Char)
  | [] => [[]]
  | '\n' :: rest => [] :: splitNl rest
  | c :: rest =>
    match splitNl rest with
    | [] => [[c]]
    | l :: ls => (c :: l) :: ls

def splitLines (s : String) : List String :=
  (splitNl s.data).map (fun l => ⟨l⟩)

/-- JavaScript `Array.prototype.join("\n")`. -/
def joinNl : List String → String
  | [] => ""
  | [x] => x
  | x :: xs => x ++ "\n" ++ joinNl xs

/-- JavaScript `Array.prototype.join(" ")`. -/
def joinSpace : List String → String
  | [] => ""
  | [x] => x
  | x :: xs => x ++ " " ++ joinSpace xs

/-- JavaScript `Array.prototype.join("")`. -/
def joinAll : List String → String
  | [] => ""
  | x :: xs => x ++ joinAll xs

/-! ## Language normalisation (`src/markdown.ts` lines 208-238, 616-630) -/

def PLAIN_LANGUAGE : String := "plaintext"

/-- `LANGUAGE_ALIASES` record from `src/markdown.ts` lines 214-238, in
source order. -/
def LANGUAGE_ALIASES : List (String × String) := [
  ("console", "bash"),
  ("shell", "bash"),
  ("sh", "bash"),
  ("shellsession", "bash"),
  ("zsh", "bash"),
  ("text", PLAIN_LANGUAGE),
  ("plain", PLAIN_LANGUAGE),
  ("plaintext", PLAIN_LANGUAGE),
  ("txt", PLAIN_LANGUAGE),
  ("js", "javascript"),
  ("javascript", "javascript"),
  ("mjs", "javascript"),
  ("cjs", "javascript"),
  ("jsx", "jsx"),
  ("ts", "typescript"),
  ("typescript", "typescript"),
  ("mermaid", "mermaid"),
  ("plantuml", "plantuml"),
  ("puml", "plantuml"),
  ("yml", "yaml"),
  ("md", "markdown"),
  ("c#", "csharp"),
  ("docker", "dockerfile")]

/-- JavaScript record lookup `LANGUAGE_ALIASES[lower]` (keys are unique,
first match). -/
def aliasLookup : List (String × String) → String → Option String
  | [], _ => none
  | (k, v) :: rest, key => if k = key then some v else aliasLookup rest key

/-- `normalizeLanguage` from `src/markdown.ts` lines 616-619. -/
def normalizeLanguage (language : String) : String :=
  let lower := lowerString language
  (aliasLookup LANGUAGE_ALIASES lower).getD lower

def DIFF_LANGUAGES : List String := ["diff"]

/-- `isDiffLanguage` from `src/markdown.ts` lines 628-630. -/
def isDiffLanguage : Option String → Bool
  | none => false
  | some language => DIFF_LANGUAGES.contains language

/-- The `DiagramLanguage` union type of `src/markdown.ts` line 208. -/
inductive DiagramLanguage
  | mermaid
  | plantuml
deriving DecidableEq

def diagramLanguageName : DiagramLanguage → String
  | .mermaid => "mermaid"
  | .plantuml => "plantuml"

/-- Membership test in `DIAGRAM_LANGUAGES` (line 212), returning the parsed
kind. -/
def diagramKindOf (language : String) : Option DiagramLanguage :=
  if language = "mermaid" then some .mermaid
  else if language = "plantuml" then some .plantuml
  else none

/-- `isDiagramLanguage` from `src/markdown.ts` lines 621-626. -/
def isDiagramLanguage : Option String → Bool
  | none => false
  | some language => (diagramKindOf language).isSome

/-! ## Char.toLower facts needed for idempotence of the normaliser -/

theorem toNat_ofNat_valid (n : Nat) (h : n.isValidChar) : (Char.ofNat n).toNat = n := by
  rw [Char.ofNat, dif_pos h]
  rfl

theorem toLower_idem (c : Char) : Char.toLower (Char.toLower c) = Char.toLower c := by
  have heq : ∀ d : Char, Char.toLower d =
      if d.toNat ≥ 65 ∧ d.toNat ≤ 90 then Char.ofNat (d.toNat + 32) else d := fun _ => rfl
  rw [heq c]
  split
  · next h =>
    have hv : (c.toNat + 32).isValidChar := Or.inl (by omega)
    rw [heq, toNat_ofNat_valid _ hv]
    have hneg : ¬ (c.toNat + 32 ≥ 65 ∧ c.toNat + 32 ≤ 90) := by omega
    rw [if_neg hneg]
  · next h => rw [heq c, if_neg h]

theorem lowerString_idem (s : String) : lowerString (lowerString s) = lowerString s := by
  simp only [lowerString, List.map_map]
  congr 1
  exact List.map_congr_left (fun a _ => toLower_idem a)

theorem aliasLookup_mem {l : List (String × String)} {key v : String}
    (h : aliasLookup l key = some v) : ∃ k, (k, v) ∈ l := by
  induction l with
  | nil => simp [aliasLookup] at h
  | cons p rest ih =>
    obtain ⟨k', v'⟩ := p
    simp only [aliasLookup] at h
    split at h
    · injection h with hv
      subst hv
      exact ⟨k', by simp⟩
    · obtain ⟨k, hk⟩ := ih h
      exact ⟨k, List.mem_cons_of_mem _ hk⟩

theorem alias_value_fixed : ∀ p ∈ LANGUAGE_ALIASES, normalizeLanguage p.2 = p.2 := by decide

/-- Claim C10: the language normaliser is idempotent — for every string
`s`, `normalizeLanguage (normalizeLanguage s) = normalizeLanguage s`; the
code-block path relies on this because `renderer.code` normalises the hint
once and `highlightCode` normalises its argument again. -/
theorem c10_normalizeLanguage_idem (s : String) :
    normalizeLanguage (normalizeLanguage s) = normalizeLanguage s := by
  cases h : aliasLookup LANGUAGE_ALIASES (lowerString s) with
  | none =>
    have h1 : normalizeLanguage s = lowerString s := by
      show (aliasLookup LANGUAGE_ALIASES (lowerString s)).getD (lowerString s) = lowerString s
      rw [h]
      rfl
    rw [h1]
    show (aliasLookup LANGUAGE_ALIASES (lowerString (lowerString s))).getD
      (lowerString (lowerString s)) = lowerString s
    rw [lowerString_idem, h]
    rfl
  | some v =>
    have h1 : normalizeLanguage s = v := by
      show (aliasLookup LANGUAGE_ALIASES (lowerString s)).getD (lowerString s) = v
      rw [h]
      rfl
    rw [h1]
    obtain ⟨k, hk⟩ := aliasLookup_mem h
    exact alias_value_fixed (k, v) hk

/-! ## Slug allocation (`src/markdown.ts` lines 354-368) -/

/-- Characters kept by the `[^a-z0-9-_]` strip in `createSlug`. -/
def isSlugChar (c : Char) : Bool :=
  ('a' ≤ c && c ≤ 'z') || ('0' ≤ c && c ≤ '9') || c = '-' || c = '_'

theorem length_dropWhile_le' (p : Char → Bool) (l : List Char) :
    (l.dropWhile p).length ≤ l.length := by
  induction l with
  | nil => simp [List.dropWhile]
  | cons a l ih =>
    rw [List.dropWhile]
    split
    · exact Nat.le_succ_of_le ih
    · exact Nat.le_refl _

/-- The hyphen-run collapse (regex "dash plus" to single dash) in
`createSlug`, written as a left-to-right scan carrying the "previous
character was a hyphen" flag so it stays structurally recursive. -/
def collapseHyphensAux : Bool → List Char → List Char
  | _, [] => []
  | prevHyphen, c :: rest =>
    if c = '-' then
      if prevHyphen then collapseHyphensAux true rest
      else '-' :: collapseHyphensAux true rest
    else c :: collapseHyphensAux false rest

def collapseHyphens (cs : List Char) : List Char :=
  collapseHyphensAux false cs

/-- The `/^-|-$/g → ""` strip in `createSlug`: the regex removes one
leading and one trailing hyphen (each alternative can match once). -/
def trimOneHyphen (cs : List Char) : List Char :=
  let cs1 := match cs with
    | '-' :: t => t
    | _ => cs
  match cs1.getLast? with
  | some '-' => cs1.dropLast
  | _ => cs1

/-- The slug base computation of `createSlug` (`src/markdown.ts` lines
355-362): lowercase, trim, whitespace runs to `-`, strip `[^a-z0-9-_]`,
collapse `-` runs, trim one leading/trailing `-`.  The whitespace-run
replacement is done character-wise: any extra hyphens it produces are
merged anyway by the later hyphen-run collapse, and the strip in
between removes no hyphen. -/
def slugBase (value : String) : String :=
  let lowered := value.data.map Char.toLower
  let trimmed := ((lowered.dropWhile Char.isWhitespace).reverse.dropWhile
    Char.isWhitespace).reverse
  let hyphened := trimmed.map (fun c => if c.isWhitespace then '-' else c)
  let filtered := hyphened.filter isSlugChar
  ⟨trimOneHyphen (collapseHyphens filtered)⟩

/-- `base || "section"` fallback of `createSlug` (line 364). -/
def slugFallback (source : String) : String :=
  let base := slugBase source
  if base = "" then "section" else base

/-- JavaScript `Map.get` over the association list model of
`Map<string, number>`. -/
def mapGet : List (String × Nat) → String → Option Nat
  | [], _ => none
  | (k, v) :: rest, key => if k = key then some v else mapGet rest key

/-- JavaScript `Map.set`: replaces the value of an existing key in place,
otherwise appends. -/
def mapSet : List (String × Nat) → String → Nat → List (String × Nat)
  | [], key, value => [(key, value)]
  | (k, v) :: rest, key, value =>
    if k = key then (key, value) :: rest else (k, v) :: mapSet rest key value

/-- `createSlug` from `src/markdown.ts` lines 354-368 (the mutable
`Map` is threaded explicitly; `String(source)` is the identity on
strings). -/
def createSlug (source : String) (counts : List (String × Nat)) :
    String × List (String × Nat) :=
  let fallback := slugFallback source
  let seen := (mapGet counts fallback).getD 0
  let counts' := mapSet counts fallback (seen + 1)
  (if seen = 0 then fallback else fallback ++ "-" ++ Nat.repr seen, counts')

/-- The sequence of slugs allocated by successive `createSlug` calls in
document order within one render (the `renderer.heading` hook calls
`createSlug` once per heading against the per-call `slugCounts` map). -/
def createSlugs : List String → List (String × Nat) → List String
  | [], _ => []
  | t :: ts, counts =>
    let r := createSlug t counts
    r.1 :: createSlugs ts r.2

theorem mapGet_mapSet_self (m : List (String × Nat)) (k : String) (v : Nat) :
    mapGet (mapSet m k v) k = some v := by
  induction m with
  | nil => simp [mapSet, mapGet]
  | cons p rest ih =>
    obtain ⟨k', v'⟩ := p
    by_cases h : k' = k
    · simp [mapSet, mapGet, h]
    · simp [mapSet, mapGet, h, ih]

theorem createSlugs_const_base (b : String) (texts : List String) :
    ∀ (counts : List (String × Nat)) (k : Nat),
      (∀ t ∈ texts, slugFallback t = b) →
      (mapGet counts b).getD 0 = k →
      createSlugs texts counts = (List.range texts.length).map
        (fun i => if k + i = 0 then b else b ++ "-" ++ Nat.repr (k + i)) := by
  induction texts with
  | nil => simp [createSlugs]
  | cons t ts ih =>
    intro counts k hall hk
    have hb : slugFallback t = b := hall t (by simp)
    have h1 : (createSlug t counts).1 = if k = 0 then b else b ++ "-" ++ Nat.repr k := by
      simp [createSlug, hb, hk]
    have h2 : (createSlug t counts).2 = mapSet counts b (k + 1) := by
      simp [createSlug, hb, hk]
    show (createSlug t counts).1 :: createSlugs ts (createSlug t counts).2 = _
    rw [h1, h2,
      ih _ (k + 1) (fun u hu => hall u (List.mem_cons_of_mem _ hu))
        (by rw [mapGet_mapSet_self]; rfl),
      List.length_cons, List.range_succ_eq_map, List.map_cons, List.map_map]
    congr 1
    refine List.map_congr_left (fun i _ => ?_)
    show (if k + 1 + i = 0 then b else b ++ "-" ++ Nat.repr (k + 1 + i)) =
      (if k + Nat.succ i = 0 then b else b ++ "-" ++ Nat.repr (k + Nat.succ i))
    rw [show k + Nat.succ i = k + 1 + i from by omega]

/-- Claim C2: within a single render call, a sequence of N headings whose
text all normalises to the same slug base `b` is allocated the ids
`b, b-1, b-2, ..., b-(N-1)` in document order (the first occurrence gets
the bare base, the k-th subsequent collision gets `-k`). -/
theorem c2_slug_collision_sequence (texts : List String) (b : String)
    (hb : ∀ t ∈ texts, slugFallback t = b) :
    createSlugs texts [] = (List.range texts.length).map
      (fun k => if k = 0 then b else b ++ "-" ++ Nat.repr k) := by
  rw [createSlugs_const_base b texts [] 0 hb rfl]
  exact List.map_congr_left (fun i _ => by rw [Nat.zero_add])

/-- Witness for C2: three headings `"Foo"` get `foo`, `foo-1`, `foo-2`. -/
theorem c2_slug_collision_sequence_witness :
    createSlugs ["Foo", "Foo", "Foo"] [] = ["foo", "foo-1", "foo-2"] := by
  rw [c2_slug_collision_sequence ["Foo", "Foo", "Foo"] "foo" (by decide)]
  decide

/-! ## Highlighting (`src/markdown.ts` lines 370-413) -/

/-- The highlight.js engine is an external collaborator; it is modelled as
an explicit record of its three entry points used by the source.  A call
that throws is modelled as `Except.error`. -/
structure Hljs where
  getLanguage : String → Bool
  highlight : String → String → Except String String
  highlightAuto : String → Except String (String × Option String)

/-- The `language ? normalizeLanguage(language) : undefined` normalisation
at the top of `highlightCode` (line 374; the empty string is falsy). -/
def highlightHint : Option String → Option String
  | none => none
  | some l => if l = "" then none else some (normalizeLanguage l)

/-- `highlightCode` from `src/markdown.ts` lines 370-413: explicit
language when recognised, `plaintext` short-circuit, otherwise
auto-detection; any engine error is caught and falls back to
`escapeHtml` with the hint language. -/
def highlightCode (h : Hljs) (code : String) (language : Option String) :
    String × Option String :=
  let normalizedLanguage := highlightHint language
  let valueToHighlight := normalizeNewlines code
  match normalizedLanguage with
  | some nl =>
    if nl ≠ PLAIN_LANGUAGE ∧ h.getLanguage nl then
      match h.highlight valueToHighlight nl with
      | .ok value => (value, some nl)
      | .error _ => (escapeHtml valueToHighlight, some nl)
    else if nl = PLAIN_LANGUAGE then
      (escapeHtml valueToHighlight, some PLAIN_LANGUAGE)
    else
      match h.highlightAuto valueToHighlight with
      | .ok (value, guessed) =>
        (value, match guessed with
          | some g => some (normalizeLanguage g)
          | none => some nl)
      | .error _ => (escapeHtml valueToHighlight, some nl)
  | none =>
    match h.highlightAuto valueToHighlight with
    | .ok (value, guessed) =>
      (value, match guessed with
        | some g => some (normalizeLanguage g)
        | none => none)
    | .error _ => (escapeHtml valueToHighlight, none)

/-! ## Code line wrapping (`src/markdown.ts` lines 415-479) -/

/-- `toLines` from `src/markdown.ts` lines 466-479: normalise newlines,
split on `\n`, pop trailing empty segments (the `preserveHtml` flag is
dead in the source: both branches return the same list). -/
def toLines (source : String) : List String :=
  ((splitLines (normalizeNewlines source)).reverse.dropWhile (fun s => s = "")).reverse

/-- The per-line class computation of `wrapCodeLines` (lines 432-457):
`code-line`, plus `code-line-empty` for an empty raw line, plus a diff
class chosen by the raw first character when the language is diff-shaped. -/
def codeLineClasses (language : Option String) (rawLine : String) : List String :=
  let classes := if rawLine.length = 0 then ["code-line", "code-line-empty"]
    else ["code-line"]
  if isDiffLanguage language then
    match rawLine.data.head? with
    | some firstChar =>
      if firstChar = '+' then classes ++ ["code-line-addition"]
      else if firstChar = '-' then classes ++ ["code-line-deletion"]
      else if firstChar = '@' then classes ++ ["code-line-hunk"]
      else classes
    | none => classes
  else classes

/-- One `<span class="code-line ...">` of the `wrapCodeLines` loop (lines
428-461): `highlightedLines[index] ?? escapeHtml(rawLine)` content with
the `&nbsp;` placeholder when the rendered line is empty. -/
def codeLineSpan (language : Option String) (rawLine : String)
    (highlightedLine? : Option String) : String :=
  let highlightedLine := highlightedLine?.getD (escapeHtml rawLine)
  let classes := codeLineClasses language rawLine
  let safeLine := if highlightedLine.length > 0 then highlightedLine else "&nbsp;"
  "<span class=\"" ++ joinSpace classes ++ "\">" ++ safeLine ++ "</span>"

/-- The indexed loop of `wrapCodeLines`, walking raw and highlighted lines
in lockstep (an index beyond the highlighted list is JS `undefined`). -/
def wrapLoop (language : Option String) : List String → List String → String
  | [], _ => ""
  | r :: rs, [] => codeLineSpan language r none ++ wrapLoop language rs []
  | r :: rs, hl :: hls => codeLineSpan language r (some hl) ++ wrapLoop language rs hls

/-- `wrapCodeLines` from `src/markdown.ts` lines 415-464. -/
def wrapCodeLines (highlighted raw : String) (language : Option String) : String :=
  let rawLines := toLines raw
  let highlightedLines := toLines highlighted
  if rawLines = [] then
    "<span class=\"code-line code-line-empty\" data-line=\"1\">&nbsp;</span>"
  else wrapLoop language rawLines highlightedLines

/-! ## Diagram rendering (`src/markdown.ts` lines 563-614) -/

/-- The `DiagramMetadata` interface of `src/markdown.ts` lines 563-568. -/
structure DiagramMetadata where
  label : String
  initialState : String
  message : String
  copyLabel : String

/-- `DIAGRAM_METADATA` from `src/markdown.ts` lines 576-590. -/
def DIAGRAM_METADATA : DiagramLanguage → DiagramMetadata
  | .mermaid =>
    { label := "Mermaid"
      initialState := "pending"
      message := "Rendering Mermaid diagram..."
      copyLabel := "Copy Mermaid source" }
  | .plantuml =>
    { label := "PlantUML"
      initialState := "unsupported"
      message := "PlantUML preview requires an external renderer. The source is shown below."
      copyLabel := "Copy PlantUML source" }

/-- `createDiagramTargetId` from `src/markdown.ts` lines 612-614. -/
def createDiagramTargetId (kind : DiagramLanguage) (id : Nat) : String :=
  "diagram-" ++ diagramLanguageName kind ++ "-" ++ Nat.repr id

/-- The copy-icon SVG literal shared by the code-block and diagram
templates (identical in both, including indentation). -/
def COPY_ICON_SVG : String :=
  "<svg aria-hidden=\"true\" viewBox=\"0 0 16 16\">\n      <path d=\"M0 6.75C0 5.784.784 5 1.75 5h1.5a.75.75 0 0 1 0 1.5h-1.5a.25.25 0 0 0-.25.25v7.5c0 .138.112.25.25.25h7.5a.25.25 0 0 0 .25-.25v-1.5a.75.75 0 0 1 1.5 0v1.5A1.75 1.75 0 0 1 9.25 16h-7.5A1.75 1.75 0 0 1 0 14.25Z\"></path>\n      <path d=\"M5 1.75C5 .784 5.784 0 6.75 0h7.5C15.216 0 16 .784 16 1.75v7.5A1.75 1.75 0 0 1 14.25 11h-7.5A1.75 1.75 0 0 1 5 9.25Zm1.75-.25a.25.25 0 0 0-.25.25v7.5c0 .138.112.25.25.25h7.5a.25.25 0 0 0 .25-.25v-7.5a.25.25 0 0 0-.25-.25Z\"></path>\n    </svg>"

/-- `renderDiagram` from `src/markdown.ts` lines 592-610 (the template
literal, with the interpolations spelled out as concatenation). -/
def renderDiagram (kind : DiagramLanguage) (source targetId : String) : String :=
  let metadata := DIAGRAM_METADATA kind
  let safeSource := escapeHtml (normalizeNewlines source)
  let figureClasses := "diagram diagram-" ++ diagramLanguageName kind
  let ariaLabel := metadata.label ++ " diagram"
  ("<figure class=\"" ++ figureClasses ++ "\" data-diagram-kind=\"" ++
    diagramLanguageName kind ++ "\" ") ++
  ("data-diagram-state=\"" ++ metadata.initialState ++ "\"") ++
  (">\n  <div class=\"diagram-target\" id=\"") ++
  targetId ++
  ("\" data-diagram-target=\"" ++ targetId ++ "\" role=\"img\" aria-label=\"" ++
    escapeHtml ariaLabel ++ "\"></div>\n  ") ++
  ("<p class=\"diagram-message\" data-diagram-message>") ++
  (escapeHtml metadata.message ++ "</p>\n  <pre class=\"diagram-source\" ") ++
  ("data-diagram-source=\"" ++ targetId ++ "\">") ++
  ("<code>" ++ safeSource ++ "</code>") ++
  ("</pre>\n  <button type=\"button\" class=\"diagram-copy\" data-diagram-copy=\"" ++
    targetId ++ "\" aria-label=\"" ++ escapeHtml metadata.copyLabel ++ "\">\n    " ++
    COPY_ICON_SVG ++ "\n  </button>\n</figure>\n")

/-! ## The renderer.code hook (`src/markdown.ts` lines 299-349) -/

/-- The per-call mutable state of `renderMarkdown` (lines 249-251):
`slugCounts`, `codeBlockId`, `diagramId`, threaded explicitly. -/
structure RenderState where
  slugCounts : List (String × Nat)
  codeBlockId : Nat
  diagramId : Nat

/-- The fresh state allocated at the start of every `renderMarkdown`
call. -/
def initialRenderState : RenderState := ⟨[], 0, 0⟩

/-- The hint normalisation in `renderer.code` (lines 300-303):
`typeof lang === "string" && lang.trim().length > 0 ?
normalizeLanguage(lang) : undefined`. -/
def hintLanguage : Option String → Option String
  | none => none
  | some lang =>
    if 0 < (jsTrim lang).length then some (normalizeLanguage lang) else none

/-- The `renderer.code` hook from `src/markdown.ts` lines 299-349:
diagram fences are routed to `renderDiagram`, everything else through
`highlightCode` and `wrapCodeLines` into the copyable block template. -/
def rendererCode (h : Hljs) (st : RenderState) (lang : Option String)
    (text : String) : String × RenderState :=
  let normalizedLanguage := hintLanguage lang
  match normalizedLanguage.bind diagramKindOf with
  | some kind =>
    let diagramId := st.diagramId + 1
    let targetId := createDiagramTargetId kind diagramId
    (renderDiagram kind text targetId, { st with diagramId := diagramId })
  | none =>
    let codeBlockId := st.codeBlockId + 1
    let blockId := "code-block-" ++ Nat.repr codeBlockId
    let codeContent := normalizeNewlines text
    let highlightResult := highlightCode h codeContent normalizedLanguage
    let finalLanguage := match highlightResult.2 with
      | some detected => some detected
      | none => normalizedLanguage
    let languageClass := match finalLanguage with
      | some l => " language-" ++ l
      | none => ""
    let codeLines := wrapCodeLines highlightResult.1 codeContent finalLanguage
    let languageBlockClass := match finalLanguage with
      | some l => "code-block-" ++ l
      | none => "code-block-plain"
    let blockClasses := ["code-block", languageBlockClass] ++
      (if isDiffLanguage finalLanguage then ["code-block-diff"] else [])
    let blockAttributes := match finalLanguage with
      | some l => " data-language=\"" ++ escapeHtml l ++ "\""
      | none => ""
    ("<div class=\"" ++ joinSpace blockClasses ++ "\"" ++ blockAttributes ++
      ">\n  <button type=\"button\" class=\"code-copy\" data-code-target=\"" ++ blockId ++
      "\" aria-label=\"Copy\">\n    " ++ COPY_ICON_SVG ++
      "\n  </button>\n  <pre><code id=\"" ++ blockId ++ "\" class=\"hljs" ++ languageClass ++
      "\">" ++ codeLines ++ "</code></pre>\n</div>\n", { st with codeBlockId := codeBlockId })

/-! ## Callout parsing (`src/markdown.ts` lines 485-561) -/

/-- The `CalloutVariant` interface (lines 485-489). -/
structure CalloutVariant where
  key : String
  label : String
  icon : String
deriving DecidableEq

/-- `CALLOUT_VARIANTS` from `src/markdown.ts` lines 498-504. -/
def CALLOUT_VARIANTS : List (String × CalloutVariant) := [
  ("note", ⟨"note", "Note", "ℹ️"⟩),
  ("tip", ⟨"tip", "Tip", "💡"⟩),
  ("important", ⟨"important", "Important", "❗"⟩),
  ("warning", ⟨"warning", "Warning", "⚠️"⟩),
  ("caution", ⟨"caution", "Caution", "⚠️"⟩)]

/-- JavaScript record lookup in `CALLOUT_VARIANTS`. -/
def calloutVariantOf : List (String × CalloutVariant) → String → Option CalloutVariant
  | [], _ => none
  | (k, v) :: rest, key => if k = key then some v else calloutVariantOf rest key

/-- The blockquote marker strip `line.replace(/^> ?/, "")` (line 511). -/
def stripMarker (line : String) : String :=
  match line.data with
  | '>' :: ' ' :: rest => ⟨rest⟩
  | '>' :: rest => ⟨rest⟩
  | _ => line

/-- JavaScript `\w`: `[A-Za-z0-9_]`. -/
def isWordChar (c : Char) : Bool := c.isAlphanum || c = '_'

/-- The callout header regex of line 517 — open bracket, bang, a nonempty
word-character tag, close bracket, then either end of line or whitespace
followed by the (possibly empty) custom title — applied to the trimmed
first line.  Returns the tag and the optional raw custom title. -/
def matchCalloutHeader (line : String) : Option (String × Option String) :=
  match line.data with
  | '[' :: '!' :: rest =>
    let tag := rest.takeWhile isWordChar
    if tag = [] then none
    else
      match rest.dropWhile isWordChar with
      | ']' :: rest2 =>
        match rest2 with
        | [] => some (⟨tag⟩, none)
        | c :: _ =>
          if c.isWhitespace then
            some (⟨tag⟩, some ⟨rest2.dropWhile Char.isWhitespace⟩)
          else none
      | _ => none
  | _ => none

/-- `CalloutMatch` (lines 491-496); its `bodyTokens` field is produced by
the external `marked.lexer` on the body text, so the model carries the
body markdown text (`contentMarkdown`, line 549) instead. -/
structure CalloutMatch where
  variant : String
  title : String
  icon : String
  contentMarkdown : String
deriving DecidableEq

/-- `parseCallout` from `src/markdown.ts` lines 506-561 (up to the final
external `marked.lexer` call: the model returns the joined body text).
An unrecognised tag falls back to the `note` variant; a nonempty trimmed
custom title wins over the variant label; leading and trailing blank
lines of the body are dropped. -/
def parseCallout (raw : String) : Option CalloutMatch :=
  if raw = "" then none
  else
    match (splitLines raw).map stripMarker with
    | [] => none
    | firstLineRaw :: rest =>
      if firstLineRaw = "" then none
      else
        match matchCalloutHeader (jsTrim firstLineRaw) with
        | none => none
        | some (rawType, rawCustomTitle) =>
          let type := lowerString rawType
          let variant := (calloutVariantOf CALLOUT_VARIANTS type).getD
            ⟨"note", "Note", "ℹ️"⟩
          let customTitle := rawCustomTitle.map jsTrim
          let title := match customTitle with
            | some t => if 0 < t.length then t else variant.label
            | none => variant.label
          let body1 := (rest.reverse.dropWhile (fun l => jsTrim l = "")).reverse
          let body := body1.dropWhile (fun l => jsTrim l = "")
          some ⟨variant.key, title, variant.icon, joinNl body⟩

/-! ## The token-level render model (`renderMarkdown`, lines 240-352) -/

/-- Tokens of the external `marked` lexer, restricted to the node kinds
whose rendering the source overrides or that carry prose.  The lexer is
an external collaborator: nested token lists (a blockquote's own tokens,
and the `marked.lexer` re-lex of a callout body) are carried inside the
token exactly as that external lexer supplies them. -/
inductive Tok where
  | heading (depth : Nat) (text : String)
  | paragraph (text : String)
  | code (lang : Option String) (text : String)
  | blockquote (raw : String) (inner : List Tok) (calloutBody : List Tok)

/-- The `renderer.text` override (lines 293-297): the default `marked`
text renderer escapes the token text with the same five-entity map as
`escapeHtml`, and the hook then pipes the output through the external
`node-emoji` `emojify` (the parameter `em`). -/
def renderTextNode (em : String → String) (text : String) : String :=
  em (escapeHtml text)

mutual

/-- Serialisation of one token under the renderer overrides installed by
`renderMarkdown` (lines 247-352): headings (lines 253-257) allocate a
slug and emit the id-carrying wrapper; paragraphs use the default
`<p>...</p>` wrapper around the overridden text hook; code fences call
the `renderer.code` hook; blockquotes render a callout (lines 259-291)
when `parseCallout` matches and the default wrapper otherwise. -/
def renderTok (h : Hljs) (em : String → String) (st : RenderState) :
    Tok → String × RenderState
  | .heading depth text =>
    let slugResult := createSlug text st.slugCounts
    ("<h" ++ Nat.repr depth ++ " id=\"" ++ slugResult.1 ++ "\">" ++
      renderTextNode em text ++ "</h" ++ Nat.repr depth ++ ">\n",
      { st with slugCounts := slugResult.2 })
  | .paragraph text =>
    ("<p>" ++ renderTextNode em text ++ "</p>\n", st)
  | .code lang text => rendererCode h st lang text
  | .blockquote raw inner calloutBody =>
    match parseCallout raw with
    | none =>
      let r := renderToks h em st inner
      ("<blockquote>\n" ++ r.1 ++ "</blockquote>\n", r.2)
    | some callout =>
      let r := if 0 < (jsTrim callout.contentMarkdown).length ∧ calloutBody.isEmpty = false then
        renderToks h em st calloutBody else ("", st)
      let bodyHtml := r.1
      let titleHtml := escapeHtml callout.title
      let iconHtml := escapeHtml callout.icon
      let body := if 0 < (jsTrim bodyHtml).length then
        "\n  <div class=\"callout-content\">\n" ++ bodyHtml ++ "\n  </div>\n"
        else ""
      ("\n<div class=\"callout callout-" ++ callout.variant ++
        "\">\n  <p class=\"callout-title\">\n    <span class=\"callout-icon\" aria-hidden=\"true\">" ++
        iconHtml ++ "</span>\n    " ++ titleHtml ++ "\n  </p>" ++ body ++ "\n</div>\n", r.2)

/-- Serialisation of a token list in document order, threading the
per-call state through each hook exactly as the closure variables of
`renderMarkdown` are mutated in document order. -/
def renderToks (h : Hljs) (em : String → String) (st : RenderState) :
    List Tok → String × RenderState
  | [] => ("", st)
  | t :: ts =>
    let r1 := renderTok h em st t
    let r2 := renderToks h em r1.2 ts
    (r1.1 ++ r2.1, r2.2)

end

/-- `renderMarkdown` from `src/markdown.ts` lines 247-352: every call
creates a fresh renderer and fresh per-call state (`slugCounts`,
`codeBlockId`, `diagramId`), then the external `marked` parser (the
parameter `lex`) drives the hooks over the token stream in document
order and the concatenated HTML string is returned. -/
def renderMarkdown (h : Hljs) (em : String → String)
    (lex : String → List Tok) (markdown : String) : String :=
  (renderToks h em initialRenderState (lex markdown)).1

/-- A sequence of independent `renderMarkdown` calls (the re-renders of
the surrounding watch loop): each call allocates its own fresh state. -/
def renderSession (h : Hljs) (em : String → String)
    (lex : String → List Tok) (docs : List String) : List String :=
  docs.map (renderMarkdown h em lex)

/-! ## Substring containment toolkit -/

/-- `p` occurs as a contiguous substring of `s`. -/
def strContains (p s : String) : Prop := p.data <:+: s.data

instance (p s : String) : Decidable (strContains p s) :=
  inferInstanceAs (Decidable (p.data <:+: s.data))

theorem strContains_self (p : String) : strContains p p := List.infix_refl p.data

theorem strContains_appendL {p : String} (a b : String) (h : strContains p a) :
    strContains p (a ++ b) := by
  unfold strContains at h ⊢
  rw [String.data_append]
  exact h.trans (List.prefix_append a.data b.data).isInfix

theorem strContains_appendR {p : String} (a b : String) (h : strContains p b) :
    strContains p (a ++ b) := by
  unfold strContains at h ⊢
  rw [String.data_append]
  exact h.trans (List.suffix_append a.data b.data).isInfix

/-! ## Claim C3 -/

/-- Claim C3: `renderMarkdown` is deterministic — each call allocates a
fresh `RenderState` (slug counts, code-block counter, diagram counter),
so in any session of renders the output of a call equals the standalone
render of the same input regardless of what was rendered before it, and
the entry point is literally the fold from the fresh initial state; two
invocations on the same string are therefore byte-identical. -/
theorem c3_render_deterministic (h : Hljs) (em : String → String)
    (lex : String → List Tok) (pre post : List String) (md : String) :
    (renderSession h em lex (pre ++ md :: post))[pre.length]? =
      some (renderMarkdown h em lex md) ∧
    renderMarkdown h em lex md = (renderToks h em initialRenderState (lex md)).1 := by
  constructor
  · unfold renderSession
    rw [List.map_append, List.getElem?_append_right (by simp), List.map_cons]
    simp
  · rfl

/-! ## Claim C5 -/

/-- A concrete stand-in highlighting engine for witnesses: it claims to
recognise every language and always throws. -/
def throwingHljs : Hljs :=
  ⟨fun _ => true, fun _ _ => Except.error "boom", fun _ => Except.error "boom"⟩

/-- Claim C5: any error thrown by the highlighting engine — on the
explicit-language call or on the auto-detection call — is caught and not
propagated: `highlightCode` still returns a rendering, with the escaped
raw text as content and the originally-hinted normalised language (if
any) kept for styling. -/
theorem c5_highlight_error_fallback (h : Hljs) (code : String)
    (language : Option String) (e : String) :
    (∀ l, language = some l → l ≠ "" →
      normalizeLanguage l ≠ PLAIN_LANGUAGE →
      h.getLanguage (normalizeLanguage l) = true →
      h.highlight (normalizeNewlines code) (normalizeLanguage l) = Except.error e →
      highlightCode h code language =
        (escapeHtml (normalizeNewlines code), some (normalizeLanguage l))) ∧
    ((highlightHint language = none ∨
      ∃ nl, highlightHint language = some nl ∧ nl ≠ PLAIN_LANGUAGE ∧
        h.getLanguage nl = false) →
      h.highlightAuto (normalizeNewlines code) = Except.error e →
      highlightCode h code language =
        (escapeHtml (normalizeNewlines code), highlightHint language)) := by
  constructor
  · intro l hl hne hplain hget herr
    subst hl
    have hh : highlightHint (some l) = some (normalizeLanguage l) := by
      simp [highlightHint, hne]
    unfold highlightCode
    rw [hh]
    simp only
    rw [if_pos ⟨hplain, hget⟩, herr]
  · intro hcase herr
    rcases hcase with hnone | ⟨nl, hsome, hne, hget⟩
    · unfold highlightCode
      rw [hnone]
      simp only
      rw [herr]
    · unfold highlightCode
      rw [hsome]
      simp only
      have hcond : ¬ (nl ≠ PLAIN_LANGUAGE ∧ h.getLanguage nl) := by
        rintro ⟨_, hg⟩
        rw [hget] at hg
        exact Bool.false_ne_true hg
      rw [if_neg hcond, if_neg hne, herr]

/-- Witness for C5: the always-throwing engine still yields escaped text
with the hinted language, on both the explicit and the auto path. -/
theorem c5_highlight_error_fallback_witness :
    highlightCode throwingHljs "let x" (some "ts") =
      (escapeHtml "let x", some "typescript") ∧
    highlightCode throwingHljs "let x" none = (escapeHtml "let x", none) := by
  constructor
  · exact (c5_highlight_error_fallback throwingHljs "let x" (some "ts") "boom").1
      "ts" rfl (by decide) (by decide) rfl rfl
  · exact (c5_highlight_error_fallback throwingHljs "let x" none "boom").2
      (Or.inl rfl) rfl

/-! ## Claim C6 -/

/-- Claim C6: in a diff-shaped fence each line is classified by its raw
first character — `+` addition, `-` deletion, `@` hunk header, any other
first character no diff class — and the classification applies only to
diff-shaped languages, so a `+` line in a non-diff language receives no
diff class. -/
theorem c6_diff_line_classification (language : Option String) (rawLine : String) :
    (isDiffLanguage language = true →
      ((rawLine.data.head? = some '+' ↔
        "code-line-addition" ∈ codeLineClasses language rawLine) ∧
       (rawLine.data.head? = some '-' ↔
        "code-line-deletion" ∈ codeLineClasses language rawLine) ∧
       (rawLine.data.head? = some '@' ↔
        "code-line-hunk" ∈ codeLineClasses language rawLine))) ∧
    (isDiffLanguage language = false →
      "code-line-addition" ∉ codeLineClasses language rawLine ∧
      "code-line-deletion" ∉ codeLineClasses language rawLine ∧
      "code-line-hunk" ∉ codeLineClasses language rawLine) := by
  have hbase : ∀ s : String,
      (s = "code-line-addition" ∨ s = "code-line-deletion" ∨ s = "code-line-hunk") →
      s ∉ (if rawLine.length = 0 then ["code-line", "code-line-empty"]
        else (["code-line"] : List String)) := by
    intro s hs
    rcases hs with h | h | h <;> subst h <;> split <;> decide
  constructor
  · intro hdiff
    cases hc : rawLine.data.head? with
    | none =>
      simp [codeLineClasses, hdiff, hc, hbase _ (Or.inl rfl),
        hbase _ (Or.inr (Or.inl rfl)), hbase _ (Or.inr (Or.inr rfl))]
    | some c =>
      by_cases h1 : c = '+'
      · subst h1
        simp [codeLineClasses, hdiff, hc, hbase _ (Or.inl rfl),
          hbase _ (Or.inr (Or.inl rfl)), hbase _ (Or.inr (Or.inr rfl))]
      · by_cases h2 : c = '-'
        · subst h2
          simp [codeLineClasses, hdiff, hc, hbase _ (Or.inl rfl),
            hbase _ (Or.inr (Or.inl rfl)), hbase _ (Or.inr (Or.inr rfl))]
        · by_cases h3 : c = '@'
          · subst h3
            simp [codeLineClasses, hdiff, hc, hbase _ (Or.inl rfl),
              hbase _ (Or.inr (Or.inl rfl)), hbase _ (Or.inr (Or.inr rfl))]
          · simp [codeLineClasses, hdiff, hc, h1, h2, h3, hbase _ (Or.inl rfl),
              hbase _ (Or.inr (Or.inl rfl)), hbase _ (Or.inr (Or.inr rfl))]
  · intro hdiff
    simp [codeLineClasses, hdiff, hbase _ (Or.inl rfl),
      hbase _ (Or.inr (Or.inl rfl)), hbase _ (Or.inr (Or.inr rfl))]

/-- Witness for C6: in a `diff` fence `+a` is an addition, `-b` a
deletion, `@@ -1,1 +1,1 @@` a hunk header, `c` plain; in a `javascript`
fence `+a` receives no diff class. -/
theorem c6_diff_line_classification_witness :
    "code-line-addition" ∈ codeLineClasses (some "diff") "+a" ∧
    "code-line-deletion" ∈ codeLineClasses (some "diff") "-b" ∧
    "code-line-hunk" ∈ codeLineClasses (some "diff") "@@ -1,1 +1,1 @@" ∧
    "code-line-addition" ∉ codeLineClasses (some "diff") "c" ∧
    "code-line-addition" ∉ codeLineClasses (some "javascript") "+a" := by
  refine ⟨?_, ?_, ?_, ?_, ?_⟩
  · exact (((c6_diff_line_classification (some "diff") "+a").1 (by decide)).1).mp (by decide)
  · exact (((c6_diff_line_classification (some "diff") "-b").1 (by decide)).2.1).mp (by decide)
  · exact (((c6_diff_line_classification (some "diff") "@@ -1,1 +1,1 @@").1
      (by decide)).2.2).mp (by decide)
  · intro hmem
    exact absurd ((((c6_diff_line_classification (some "diff") "c").1
      (by decide)).1).mpr hmem) (by decide)
  · exact ((c6_diff_line_classification (some "javascript") "+a").2 (by decide)).1

/-! ## Claim C4 -/

theorem codeLineClasses_head (language : Option String) (rawLine : String) :
    ∃ tail, codeLineClasses language rawLine = "code-line" :: tail := by
  unfold codeLineClasses
  repeat' split
  all_goals exact ⟨_, rfl⟩

theorem joinSpace_head_contains (a : String) (l : List String) :
    strContains a (joinSpace (a :: l)) := by
  cases l with
  | nil => exact strContains_self a
  | cons b m =>
    show strContains a ((a ++ " ") ++ joinSpace (b :: m))
    exact strContains_appendL _ _ (strContains_appendL _ _ (strContains_self a))

theorem codeLineSpan_contains (language : Option String) (rawLine : String)
    (hl? : Option String) : strContains "code-line" (codeLineSpan language rawLine hl?) := by
  obtain ⟨tail, htail⟩ := codeLineClasses_head language rawLine
  unfold codeLineSpan
  rw [htail]
  apply strContains_appendL
  apply strContains_appendL
  apply strContains_appendL
  apply strContains_appendR
  exact joinSpace_head_contains _ _

theorem wrapLoop_contains (language : Option String) (r : String) (rs hls : List String) :
    strContains "code-line" (wrapLoop language (r :: rs) hls) := by
  cases hls with
  | nil =>
    show strContains "code-line" (codeLineSpan language r none ++ wrapLoop language rs [])
    exact strContains_appendL _ _ (codeLineSpan_contains _ _ _)
  | cons hl hls' =>
    show strContains "code-line"
      (codeLineSpan language r (some hl) ++ wrapLoop language rs hls')
    exact strContains_appendL _ _ (codeLineSpan_contains _ _ _)

theorem wrapCodeLines_contains (highlighted raw : String) (language : Option String) :
    strContains "code-line" (wrapCodeLines highlighted raw language) := by
  simp only [wrapCodeLines]
  split
  · decide
  · next hne =>
    cases hrl : toLines raw with
    | nil => exact absurd hrl hne
    | cons r rs =>
      exact wrapLoop_contains _ _ _ _

/-- Claim C4: code-block rendering is total — for every fence content and
any (or no) language hint the emitted markup contains at least one
`code-line` span (both at the `wrapCodeLines` level and through the whole
`renderer.code` hook for non-diagram fences), and an entirely empty fence
yields exactly one empty-placeholder line. -/
theorem c4_code_block_totality (highlighted raw : String) (language : Option String) :
    strContains "code-line" (wrapCodeLines highlighted raw language) ∧
    wrapCodeLines highlighted "" language =
      "<span class=\"code-line code-line-empty\" data-line=\"1\">&nbsp;</span>" ∧
    (∀ (h : Hljs) (st : RenderState) (lang : Option String) (text : String),
      isDiagramLanguage (hintLanguage lang) = false →
      strContains "code-line" (rendererCode h st lang text).1) := by
  refine ⟨wrapCodeLines_contains _ _ _, ?_, ?_⟩
  · simp [wrapCodeLines, show toLines "" = [] from by decide]
  · intro h st lang text hdiag
    have hnone : (hintLanguage lang).bind diagramKindOf = none := by
      cases hl : hintLanguage lang with
      | none => rfl
      | some l =>
        rw [hl] at hdiag
        have : diagramKindOf l = none := by
          cases hk : diagramKindOf l with
          | none => rfl
          | some k => simp [isDiagramLanguage, hk] at hdiag
        simp [this]
    simp only [rendererCode]
    rw [hnone]
    simp only
    apply strContains_appendL
    apply strContains_appendR
    exact wrapCodeLines_contains _ _ _

/-- Witness for C4: rendering a `ts` fence through the hook with a
throwing engine still emits a `code-line` span. -/
theorem c4_code_block_totality_witness :
    strContains "code-line"
      (rendererCode throwingHljs initialRenderState (some "ts") "let x").1 :=
  (c4_code_block_totality "" "" none).2.2 throwingHljs initialRenderState
    (some "ts") "let x" (by decide)

/-! ## A scanning automaton for substring absence -/

/-- A strict left-to-right automaton run over a character list; `none` is
the absorbing "pattern found" state. -/
def scanFold (step : Nat → Char → Option Nat) : Option Nat → List Char → Option Nat
  | none, _ => none
  | some n, [] => some n
  | some n, c :: rest => scanFold step (step n c) rest

theorem scanFold_absorb (step : Nat → Char → Option Nat) (l : List Char) :
    scanFold step none l = none := by
  cases l <;> rfl

theorem scanFold_append (step : Nat → Char → Option Nat) (q : Option Nat)
    (a b : List Char) :
    scanFold step q (a ++ b) = scanFold step (scanFold step q a) b := by
  induction a generalizing q with
  | nil =>
    cases q with
    | none => rfl
    | some n => rfl
  | cons c rest ih =>
    cases q with
    | none =>
      rw [scanFold_absorb, scanFold_absorb, scanFold_absorb]
    | some n =>
      rw [List.cons_append]
      show scanFold step (step n c) (rest ++ b) = _
      rw [ih]
      rfl

/-- If running the automaton over the whole pattern from any state lands
in the absorbing state, then a run over a string that avoids the
absorbing state witnesses absence of the pattern. -/
theorem scanFold_no_infix (step : Nat → Char → Option Nat) {p l : List Char}
    (hdead : ∀ q : Nat, scanFold step (some q) p = none)
    (hrun : scanFold step (some 0) l ≠ none) : ¬ p <:+: l := by
  intro hinf
  obtain ⟨x, y, hxy⟩ := hinf
  apply hrun
  rw [← hxy, scanFold_append, scanFold_append]
  cases hq : scanFold step (some 0) x with
  | none => rw [scanFold_absorb, scanFold_absorb]
  | some q' => rw [hdead q', scanFold_absorb]

/-- Pattern automaton for the word `empty` (its first letter never
recurs inside the word, so reading the whole word from any state reaches
the absorbing state). -/
def stepEmpty (q : Nat) (c : Char) : Option Nat :=
  if c = 'e' then some 1
  else if q = 1 ∧ c = 'm' then some 2
  else if q = 2 ∧ c = 'p' then some 3
  else if q = 3 ∧ c = 't' then some 4
  else if q = 4 ∧ c = 'y' then none
  else some 0

/-! ## Claim C8 -/

/-- Claim C8: a fence whose normalised language is `mermaid` emits a
figure carrying `data-diagram-state="pending"`; a fence whose normalised
language is `plantuml` — including the fence-info alias `puml` — carries
`data-diagram-state="unsupported"`; in both cases the HTML-escaped copy
of the raw source and the `data-diagram-source` element are present. -/
theorem c8_diagram_contract (source targetId : String) :
    strContains "data-diagram-state=\"pending\"" (renderDiagram .mermaid source targetId) ∧
    strContains "data-diagram-state=\"unsupported\"" (renderDiagram .plantuml source targetId) ∧
    strContains ("<code>" ++ escapeHtml (normalizeNewlines source) ++ "</code>")
      (renderDiagram .mermaid source targetId) ∧
    strContains ("<code>" ++ escapeHtml (normalizeNewlines source) ++ "</code>")
      (renderDiagram .plantuml source targetId) ∧
    strContains "data-diagram-source=\"" (renderDiagram .mermaid source targetId) ∧
    strContains "data-diagram-source=\"" (renderDiagram .plantuml source targetId) ∧
    normalizeLanguage "puml" = "plantuml" ∧
    (∀ (h : Hljs) (st : RenderState) (text : String),
      (rendererCode h st (some "puml") text).1 =
        renderDiagram .plantuml text (createDiagramTargetId .plantuml (st.diagramId + 1))) := by
  refine ⟨?_, ?_, ?_, ?_, ?_, ?_, by decide, ?_⟩
  · simp only [renderDiagram]
    apply strContains_appendL
    apply strContains_appendL
    apply strContains_appendL
    apply strContains_appendL
    apply strContains_appendL
    apply strContains_appendL
    apply strContains_appendL
    apply strContains_appendL
    apply strContains_appendR
    decide
  · simp only [renderDiagram]
    apply strContains_appendL
    apply strContains_appendL
    apply strContains_appendL
    apply strContains_appendL
    apply strContains_appendL
    apply strContains_appendL
    apply strContains_appendL
    apply strContains_appendL
    apply strContains_appendR
    decide
  · simp only [renderDiagram]
    apply strContains_appendL
    apply strContains_appendR
    exact strContains_self _
  · simp only [renderDiagram]
    apply strContains_appendL
    apply strContains_appendR
    exact strContains_self _
  · simp only [renderDiagram]
    apply strContains_appendL
    apply strContains_appendL
    apply strContains_appendR
    apply strContains_appendL
    apply strContains_appendL
    exact strContains_self _
  · simp only [renderDiagram]
    apply strContains_appendL
    apply strContains_appendL
    apply strContains_appendR
    apply strContains_appendL
    apply strContains_appendL
    exact strContains_self _
  · intro h st text
    rfl

/-! ## Claim C9 -/

set_option maxRecDepth 8192 in
/-- Counterexample for C9: rendering an empty `mermaid` (resp.
`plantuml`) diagram fence yields markup that nowhere contains the word
`empty` — in particular no "diagram is empty" message — because
`renderDiagram` has no empty-source branch at all. -/
theorem c9_empty_diagram_counterexample :
    ¬ strContains "empty" (renderDiagram .mermaid "" "diagram-mermaid-1") ∧
    ¬ strContains "empty" (renderDiagram .plantuml "" "diagram-plantuml-1") := by
  constructor <;>
    exact scanFold_no_infix stepEmpty (fun q => rfl) (by decide)

set_option maxRecDepth 8192 in
/-- Claim C9 (amended): an empty diagram source is resolved locally in
the sense that no error is surfaced — the figure is still emitted, with
the kind's standard status message element and an (empty) escaped-source
element `<code></code>` — but the markup carries no special
"diagram is empty" message. -/
theorem c9_empty_diagram_renders (kind : DiagramLanguage) (targetId : String) :
    strContains "<code></code>" (renderDiagram kind "" targetId) ∧
    strContains "data-diagram-message" (renderDiagram kind "" targetId) := by
  constructor
  · simp only [renderDiagram]
    apply strContains_appendL
    apply strContains_appendR
    decide
  · simp only [renderDiagram]
    apply strContains_appendL
    apply strContains_appendL
    apply strContains_appendL
    apply strContains_appendL
    apply strContains_appendR
    decide

/-! ## Claim C7 -/

/-- Claim C7: a blockquote whose first line (after stripping the leading
blockquote marker) matches the callout header pattern with an
unrecognised tag is still parsed as a callout — never an error — using
the `note` variant's key and icon, while a nonempty trimmed custom title
is preserved as the displayed title. -/
theorem c7_unknown_callout_tag (raw firstLine : String) (rest : List String)
    (tag ttl : String)
    (hraw : raw ≠ "")
    (hsplit : (splitLines raw).map stripMarker = firstLine :: rest)
    (hfirst : firstLine ≠ "")
    (hheader : matchCalloutHeader (jsTrim firstLine) = some (tag, some ttl))
    (hunknown : calloutVariantOf CALLOUT_VARIANTS (lowerString tag) = none)
    (htitle : 0 < (jsTrim ttl).length) :
    ∃ body, parseCallout raw = some ⟨"note", jsTrim ttl, "ℹ️", body⟩ := by
  refine ⟨joinNl (((rest.reverse.dropWhile (fun l => jsTrim l = "")).reverse).dropWhile
    (fun l => jsTrim l = "")), ?_⟩
  unfold parseCallout
  rw [if_neg hraw, hsplit]
  simp only
  rw [if_neg hfirst, hheader]
  simp only [hunknown, Option.getD_none, Option.map]
  rw [if_pos htitle]

/-- Witness for C7: `> [!BOGUS] title` with a body line parses to the
`note` variant, the note icon, and the custom title `title`. -/
theorem c7_unknown_callout_tag_witness :
    ∃ body, parseCallout "> [!BOGUS] title\n> body" =
      some ⟨"note", "title", "ℹ️", body⟩ :=
  c7_unknown_callout_tag "> [!BOGUS] title\n> body" "[!BOGUS] title" ["body"]
    "BOGUS" "title" (by decide) (by decide) (by decide) (by decide) (by decide)
    (by decide)

/-! ## Claim C1: character-level facts -/

theorem digitChar_ne_lt (m : Nat) : Nat.digitChar m ≠ '<' := by
  match m with
  | 0 => decide
  | 1 => decide
  | 2 => decide
  | 3 => decide
  | 4 => decide
  | 5 => decide
  | 6 => decide
  | 7 => decide
  | 8 => decide
  | 9 => decide
  | 10 => decide
  | 11 => decide
  | 12 => decide
  | 13 => decide
  | 14 => decide
  | 15 => decide
  | n + 16 =>
    unfold Nat.digitChar
    repeat rw [if_neg (by omega)]
    decide

theorem toDigitsCore_no_lt :
    ∀ (fuel n : Nat) (ds : List Char), (∀ c ∈ ds, c ≠ '<') →
      ∀ c ∈ Nat.toDigitsCore 10 fuel n ds, c ≠ '<' := by
  intro fuel
  induction fuel with
  | zero => intro n ds hds c hc; exact hds c hc
  | succ fuel ih =>
    intro n ds hds c hc
    simp only [Nat.toDigitsCore] at hc
    split at hc
    · rcases List.mem_cons.mp hc with h | h
      · subst h; exact digitChar_ne_lt _
      · exact hds c h
    · refine ih _ _ ?_ c hc
      intro c' hc'
      rcases List.mem_cons.mp hc' with h | h
      · subst h; exact digitChar_ne_lt _
      · exact hds c' h

theorem natRepr_no_lt (n : Nat) : ∀ c ∈ (Nat.repr n).data, c ≠ '<' := by
  intro c hc
  exact toDigitsCore_no_lt (n + 1) n [] (by simp) c hc

theorem escapeChar_no_lt (c : Char) : ∀ c' ∈ escapeChar c, c' ≠ '<' := by
  intro c' h
  unfold escapeChar at h
  split_ifs at h with h1 h2 h3 h4 h5
  · have h' : c' ∈ ['&', 'a', 'm', 'p', ';'] := h
    fin_cases h' <;> decide
  · have h' : c' ∈ ['&', 'l', 't', ';'] := h
    fin_cases h' <;> decide
  · have h' : c' ∈ ['&', 'g', 't', ';'] := h
    fin_cases h' <;> decide
  · have h' : c' ∈ ['&', 'q', 'u', 'o', 't', ';'] := h
    fin_cases h' <;> decide
  · have h' : c' ∈ ['&', '#', '3', '9', ';'] := h
    fin_cases h' <;> decide
  · have h' : c' ∈ [c] := h
    rw [List.mem_singleton] at h'
    subst h'
    exact h2

theorem escapeList_no_lt (l : List Char) : ∀ c ∈ escapeList l, c ≠ '<' := by
  induction l with
  | nil => simp [escapeList]
  | cons c0 rest ih =>
    intro c hc
    simp only [escapeList] at hc
    rcases List.mem_append.mp hc with h | h
    · exact escapeChar_no_lt c0 c h
    · exact ih c h

theorem escapeHtml_no_lt (s : String) : ∀ c ∈ (escapeHtml s).data, c ≠ '<' :=
  fun c hc => escapeList_no_lt s.data c hc

theorem mem_collapseHyphensAux {c : Char} (cs : List Char) :
    ∀ flag, c ∈ collapseHyphensAux flag cs → c ∈ cs := by
  induction cs with
  | nil => intro flag h; simp [collapseHyphensAux] at h
  | cons c0 rest ih =>
    intro flag h
    unfold collapseHyphensAux at h
    by_cases h0 : c0 = '-'
    · rw [if_pos h0] at h
      by_cases hf : flag
      · rw [if_pos hf] at h
        exact List.mem_cons_of_mem _ (ih _ h)
      · rw [if_neg hf] at h
        rcases List.mem_cons.mp h with hc | hc
        · rw [hc, h0]
          exact List.mem_cons_self _ _
        · exact List.mem_cons_of_mem _ (ih _ hc)
    · rw [if_neg h0] at h
      rcases List.mem_cons.mp h with hc | hc
      · rw [hc]
        exact List.mem_cons_self _ _
      · exact List.mem_cons_of_mem _ (ih _ hc)

theorem mem_trimOneHyphen {c : Char} (cs : List Char) (h : c ∈ trimOneHyphen cs) :
    c ∈ cs := by
  have step1 : ∀ x : Char, x ∈ (match cs with | '-' :: t => t | _ => cs) → x ∈ cs := by
    intro x hx
    split at hx
    · exact List.mem_cons_of_mem _ hx
    · exact hx
  simp only [trimOneHyphen] at h
  split at h
  · exact step1 c ((List.dropLast_sublist _).subset h)
  · exact step1 c h

theorem slugBase_no_lt (value : String) : ∀ c ∈ (slugBase value).data, c ≠ '<' := by
  intro c hc hlt
  subst hlt
  simp only [slugBase] at hc
  have h1 := mem_trimOneHyphen _ hc
  have h2 := mem_collapseHyphensAux _ false h1
  have h3 := (List.mem_filter.mp h2).2
  exact absurd h3 (by decide)

theorem slugFallback_no_lt (source : String) :
    ∀ c ∈ (slugFallback source).data, c ≠ '<' := by
  intro c hc
  simp only [slugFallback] at hc
  split at hc
  · have h' : c ∈ ['s', 'e', 'c', 't', 'i', 'o', 'n'] := hc
    fin_cases h' <;> decide
  · exact slugBase_no_lt source c hc

theorem createSlug_no_lt (text : String) (counts : List (String × Nat)) :
    ∀ c ∈ ((createSlug text counts).1).data, c ≠ '<' := by
  intro c hc
  simp only [createSlug] at hc
  split at hc
  · exact slugFallback_no_lt text c hc
  · rw [String.data_append, String.data_append] at hc
    rcases List.mem_append.mp hc with hc1 | hc2
    · rcases List.mem_append.mp hc1 with hca | hcb
      · exact slugFallback_no_lt text c hca
      · have h' : c ∈ ['-'] := hcb
        rw [List.mem_singleton] at h'
        subst h'
        decide
    · exact natRepr_no_lt _ c hc2

/-! ## Claim C1: the script-tag automaton -/

/-- Pattern automaton for `<script` (its first character `<` never recurs
inside the pattern, so reading the whole pattern from any state reaches
the absorbing state). -/
def stepScript (q : Nat) (c : Char) : Option Nat :=
  if c = '<' then some 1
  else if q = 1 ∧ c = 's' then some 2
  else if q = 2 ∧ c = 'c' then some 3
  else if q = 3 ∧ c = 'r' then some 4
  else if q = 4 ∧ c = 'i' then some 5
  else if q = 5 ∧ c = 'p' then some 6
  else if q = 6 ∧ c = 't' then none
  else some 0

/-- The rendered fragment neither contains `<script` nor ends inside a
partial match (every `<` so far was followed by markup of our own
templates, never by `script`). -/
def cleanScan (s : String) : Prop :=
  scanFold stepScript (some 0) s.data = some 0

instance (s : String) : Decidable (cleanScan s) :=
  inferInstanceAs (Decidable (_ = _))

theorem cleanScan_append {a b : String} (ha : cleanScan a) (hb : cleanScan b) :
    cleanScan (a ++ b) := by
  unfold cleanScan at ha hb ⊢
  rw [String.data_append, scanFold_append, ha, hb]

theorem stepScript_zero (c : Char) (hc : c ≠ '<') : stepScript 0 c = some 0 := by
  simp [stepScript, hc]

theorem cleanScan_of_no_lt {s : String} (h : ∀ c ∈ s.data, c ≠ '<') : cleanScan s := by
  unfold cleanScan
  have key : ∀ l : List Char, (∀ c ∈ l, c ≠ '<') →
      scanFold stepScript (some 0) l = some 0 := by
    intro l
    induction l with
    | nil => intro _; rfl
    | cons c0 rest ih =>
      intro hall
      show scanFold stepScript (stepScript 0 c0) rest = some 0
      rw [stepScript_zero c0 (hall c0 (by simp))]
      exact ih (fun c hc => hall c (List.mem_cons_of_mem _ hc))
  exact key s.data h

theorem cleanScan_no_script {s : String} (h : cleanScan s) :
    ¬ strContains "<script" s := by
  have hdead : ∀ q : Nat, scanFold stepScript (some q) "<script".data = none :=
    fun _ => rfl
  intro hinf
  exact scanFold_no_infix stepScript hdead (by rw [h]; simp) hinf

/-! ## Claim C1: the render model stays clean on prose documents -/

/-- The token kinds the baseline parser classifies as prose text (heading
text and paragraph text nodes). -/
def ProseTok : Tok → Prop
  | .heading _ _ => True
  | .paragraph _ => True
  | .code _ _ => False
  | .blockquote _ _ _ => False

theorem renderTok_clean (h : Hljs) (em : String → String)
    (hem : ∀ s, (∀ c ∈ s.data, c ≠ '<') → ∀ c ∈ (em s).data, c ≠ '<')
    (st : RenderState) (t : Tok) (ht : ProseTok t) :
    cleanScan (renderTok h em st t).1 := by
  cases t with
  | heading depth text =>
    simp only [renderTok]
    repeat' apply cleanScan_append
    all_goals first
      | decide
      | exact cleanScan_of_no_lt (natRepr_no_lt _)
      | exact cleanScan_of_no_lt (createSlug_no_lt _ _)
      | exact cleanScan_of_no_lt (hem _ (escapeHtml_no_lt _))
  | paragraph text =>
    simp only [renderTok]
    repeat' apply cleanScan_append
    all_goals first
      | decide
      | exact cleanScan_of_no_lt (hem _ (escapeHtml_no_lt _))
  | code lang text => exact ht.elim
  | blockquote raw inner calloutBody => exact ht.elim

theorem renderToks_clean (h : Hljs) (em : String → String)
    (hem : ∀ s, (∀ c ∈ s.data, c ≠ '<') → ∀ c ∈ (em s).data, c ≠ '<')
    (toks : List Tok) :
    (∀ t ∈ toks, ProseTok t) → ∀ st, cleanScan (renderToks h em st toks).1 := by
  induction toks with
  | nil =>
    intro _ st
    simp only [renderToks]
    decide
  | cons t ts ih =>
    intro hall st
    simp only [renderToks]
    exact cleanScan_append (renderTok_clean h em hem st t (hall t (by simp)))
      (ih (fun u hu => hall u (List.mem_cons_of_mem _ hu)) _)

/-- Claim C1: escaping safety.  For every document whose lexer output
classifies its content as prose (headings and paragraphs — in particular
any input whose `<script>alert(1)</script>` occurs as prose text), the
HTML returned by `renderMarkdown` contains no unescaped `<script>` tag,
provided the external emoji filter introduces no `<` of its own; and on
the concrete attack string the paragraph renders with every `<`/`>`
emitted only as the `&lt;`/`&gt;` entities produced by the text
escaper. -/
theorem c1_prose_escaping :
    (∀ (h : Hljs) (em : String → String) (lex : String → List Tok) (md : String),
      (∀ s, (∀ c ∈ s.data, c ≠ '<') → ∀ c ∈ (em s).data, c ≠ '<') →
      (∀ t ∈ lex md, ProseTok t) →
      ¬ strContains "<script" (renderMarkdown h em lex md)) ∧
    renderMarkdown throwingHljs id (fun m => [Tok.paragraph m])
      "<script>alert(1)</script>" =
      "<p>&lt;script&gt;alert(1)&lt;/script&gt;</p>\n" := by
  constructor
  · intro h em lex md hem hprose
    exact cleanScan_no_script
      (renderToks_clean h em hem (lex md) hprose initialRenderState)
  · simp only [renderMarkdown, renderToks, renderTok]
    decide

/-- Witness for C1: the concrete attack document is rendered without any
unescaped `<script>`. -/
theorem c1_prose_escaping_witness :
    ¬ strContains "<script"
      (renderMarkdown throwingHljs id (fun m => [Tok.paragraph m])
        "<script>alert(1)</script>") :=
  c1_prose_escaping.1 throwingHljs id (fun m => [Tok.paragraph m])
    "<script>alert(1)</script>" (fun _ hs => hs)
    (by
      intro t ht
      rw [List.mem_singleton] at ht
      subst ht
      trivial)
